/- Verification of the address-book contact manager (task1.py).

The Python program is shallowly embedded: each class and function of the
source is translated into a Lean definition with the same name where Lean
allows it.  Python dictionaries are modelled as association lists with the
CPython semantics (updating an existing key keeps its position, a new key is
appended at the end); in-place mutation of a record that is aliased inside
the book is modelled by explicit replacement of the value stored under the
looked-up key.  Strings are Lean strings; the character class matched by the
regex token \d is modelled as the ASCII digits 0-9 (CPython would
additionally accept other Unicode decimal digits), and str.split() is
modelled with Char.isWhitespace.  Errors raised by the Python code are
modelled with Except / Option results; the input_error decorator, which
turns every exception from a handler into a status string, is modelled by
making the command handlers total and return the corresponding message. -/
import Mathlib

namespace Task1

/-- Decidable equality for Except results, so that concrete runs of the
fallible operations can be evaluated inside proofs. -/
instance {ε α : Type} [DecidableEq ε] [DecidableEq α] : DecidableEq (Except ε α) := fun a b =>
  match a, b with
  | .ok x, .ok y =>
    if h : x = y then isTrue (by subst h; rfl)
    else isFalse (fun c => h (Except.ok.inj c))
  | .error x, .error y =>
    if h : x = y then isTrue (by subst h; rfl)
    else isFalse (fun c => h (Except.error.inj c))
  | .ok _, .error _ => isFalse (fun c => Except.noConfusion c)
  | .error _, .ok _ => isFalse (fun c => Except.noConfusion c)

/-- int(token) for a list of decimal digit characters. -/
def digitsToNat (ds : List Char) : Nat :=
  ds.foldl (fun a c => 10 * a + (c.toNat - 48)) 0

/-- Error kinds raised (as ValueError) by the validated field constructors. -/
inductive VErr where
  | invalidName
  | invalidPhone
  | invalidDate
  deriving DecidableEq

/-- str(e) of the ValueError raised by each field constructor in task1.py. -/
def VErr.msg : VErr → String
  | .invalidName => "Name must be a non-empty string"
  | .invalidPhone => "Invalid phone number format. Use +380XXXXXXXXX"
  | .invalidDate => "Invalid date format. Use DD.MM.YYYY"

/-- Python regex end anchor: in re, the dollar sign matches at the end of the
string or just before a single newline at the end of the string. -/
def dollarEnd : List Char → Bool
  | [] => true
  | [c] => c == '\n'
  | _ => false

/-- The regex character class \d, modelled as the ASCII digits 0-9 (decimal
digit code points 48 to 57). -/
def isDigitChar (c : Char) : Bool :=
  decide (48 ≤ c.toNat) && decide (c.toNat ≤ 57)

/-- Exactly n digits followed by the Python end anchor. -/
def nDigitsThenEnd : Nat → List Char → Bool
  | 0, rest => dollarEnd rest
  | _ + 1, [] => false
  | n + 1, c :: rest => isDigitChar c && nDigitsThenEnd n rest

/-- Phone.validate_phone: bool(re.match(the anchored pattern plus-380 then
nine digits then dollar, phone)).  The leading characters are the literal
'+380', then \d repeated 9 times, then the dollar anchor. -/
def validate_phone (s : String) : Bool :=
  match s.data with
  | c1 :: c2 :: c3 :: c4 :: rest =>
    c1 == '+' && c2 == '3' && c3 == '8' && c4 == '0' && nDigitsThenEnd 9 rest
  | _ => false

/-- A validated phone field.  Phone.__init__ stores the raw text. -/
structure Phone where
  value : String
  deriving DecidableEq

/-- Phone.__init__: raises ValueError when validate_phone fails. -/
def Phone.make (s : String) : Except VErr Phone :=
  if validate_phone s then .ok ⟨s⟩ else .error .invalidPhone

/-- The year/month/day components of a Python datetime value (the time
components are always zero for the dates this program builds). -/
structure PyDate where
  year : Nat
  month : Nat
  day : Nat
  deriving DecidableEq

/-- Gregorian leap year rule used by Python datetime. -/
def isLeap (y : Nat) : Bool :=
  y % 4 == 0 && (!(y % 100 == 0) || y % 400 == 0)

/-- days_in_month of Python datetime (only queried with 1 <= m <= 12). -/
def daysInMonth (y m : Nat) : Nat :=
  if m = 2 then (if isLeap y then 29 else 28)
  else if m = 4 ∨ m = 6 ∨ m = 9 ∨ m = 11 then 30
  else 31

/-- The successor date, proleptic Gregorian calendar. -/
def nextDay (d : PyDate) : PyDate :=
  if d.day < daysInMonth d.year d.month then ⟨d.year, d.month, d.day + 1⟩
  else if d.month < 12 then ⟨d.year, d.month + 1, 1⟩
  else ⟨d.year + 1, 1, 1⟩

/-- date + timedelta(days = n). -/
def addDays : PyDate → Nat → PyDate
  | d, 0 => d
  | d, n + 1 => addDays (nextDay d) n

/-- The day field of the strptime format: the regex alternation
3[01] or [12]\d or 0[1-9] or [1-9].  On a run of digits this alternation
matches the whole run exactly when the run has length 1 or 2 and its value
is between 1 and 31. -/
def dayTok (ds : List Char) : Bool :=
  decide (ds.length = 1 ∨ ds.length = 2) && decide (1 ≤ digitsToNat ds)
    && decide (digitsToNat ds ≤ 31)

/-- The month field of the strptime format: the regex alternation
1[0-2] or 0[1-9] or [1-9]: a run of 1 or 2 digits with value 1 to 12. -/
def monthTok (ms : List Char) : Bool :=
  decide (ms.length = 1 ∨ ms.length = 2) && decide (1 ≤ digitsToNat ms)
    && decide (digitsToNat ms ≤ 12)

/-- datetime.strptime(value, the day-dot-month-dot-year format) up to but not
including the datetime constructor's range checks: CPython compiles the
format to the regex day-field, literal dot, month-field, literal dot, four
digits for the year, and rejects the input when unconverted data remains.
Each field is a maximal run of digits because a literal dot follows it. -/
def pyStrptimeDMY (cs : List Char) : Option (Nat × Nat × Nat) :=
  let ds := cs.takeWhile isDigitChar
  match cs.dropWhile isDigitChar with
  | dot1 :: r2 =>
    if dot1 = '.' then
      let ms := r2.takeWhile isDigitChar
      (match r2.dropWhile isDigitChar with
       | dot2 :: r4 =>
         if dot2 = '.' then
           let ys := r4.takeWhile isDigitChar
           if (r4.dropWhile isDigitChar).isEmpty && dayTok ds && monthTok ms
               && (ys.length == 4)
           then some (digitsToNat ds, digitsToNat ms, digitsToNat ys)
           else none
         else none
       | [] => none)
    else none
  | [] => none

/-- A validated birthday field: stored as a date value, not text. -/
structure Birthday where
  value : PyDate
  deriving DecidableEq

/-- Birthday.__init__: datetime.strptime(value, day-month-year format),
followed by the datetime constructor's own range checks (MINYEAR = 1,
MAXYEAR = 9999, month 1..12, day 1..days_in_month); any failure is reported
as the InvalidDate ValueError. -/
def Birthday.make (s : String) : Except VErr Birthday :=
  match pyStrptimeDMY s.data with
  | some (d, m, y) =>
    if 1 ≤ y ∧ y ≤ 9999 ∧ 1 ≤ m ∧ m ≤ 12 ∧ 1 ≤ d ∧ d ≤ daysInMonth y m
    then .ok ⟨⟨y, m, d⟩⟩
    else .error .invalidDate
  | none => .error .invalidDate

/-- Two-digit zero-padded decimal rendering (strftime %d and %m). -/
def pad2 (n : Nat) : List Char :=
  [Char.ofNat (48 + n / 10), Char.ofNat (48 + n % 10)]

/-- Four-digit zero-padded decimal rendering. -/
def pad4 (n : Nat) : List Char :=
  [Char.ofNat (48 + n / 1000), Char.ofNat (48 + n / 100 % 10),
   Char.ofNat (48 + n / 10 % 10), Char.ofNat (48 + n % 10)]

/-- strftime %Y: CPython delegates to the platform strftime, and glibc
renders the year as a plain unpadded decimal number (a datetime year is
always between 1 and 9999). -/
def fmtYear (n : Nat) : List Char :=
  if n < 10 then [Char.ofNat (48 + n)]
  else if n < 100 then [Char.ofNat (48 + n / 10), Char.ofNat (48 + n % 10)]
  else if n < 1000 then
    [Char.ofNat (48 + n / 100), Char.ofNat (48 + n / 10 % 10), Char.ofNat (48 + n % 10)]
  else pad4 n

/-- strftime of a date with the day-dot-month-dot-year format (%d and %m are
zero padded to two digits, %Y is unpadded). -/
def strftimeDMY (d : PyDate) : String :=
  String.mk (pad2 d.day ++ '.' :: pad2 d.month ++ '.' :: fmtYear d.year)

/-- A validated name field. -/
structure Name where
  value : String
  deriving DecidableEq

/-- Name.__init__: raises ValueError on an empty string (every Lean String
is a Python str, so the isinstance check cannot fail in the model). -/
def Name.make (s : String) : Except VErr Name :=
  if s = ("") then .error .invalidName else .ok ⟨s⟩

/-- One contact: a validated name, ordered phones, optional birthday. -/
structure Record where
  name : Name
  phones : List Phone
  birthday : Option Birthday
  deriving DecidableEq

/-- Record.__init__(name): validates the name; phones empty, no birthday. -/
def Record.new (s : String) : Except VErr Record :=
  (Name.make s).map fun n => ⟨n, [], none⟩

/-- Record.add_phone: self.phones.append(Phone(phone)).  Phone(phone) is
evaluated first, so on a validation error nothing is appended. -/
def Record.add_phone (r : Record) (s : String) : Except VErr Record :=
  (Phone.make s).map fun p => { r with phones := r.phones ++ [p] }

/-- Record.add_birthday: self.birthday = Birthday(birthday). -/
def Record.add_birthday (r : Record) (s : String) : Except VErr Record :=
  (Birthday.make s).map fun b => { r with birthday := some b }

/-- Record.get_birthday: the stored date, or None. -/
def Record.get_birthday (r : Record) : Option PyDate :=
  r.birthday.map Birthday.value

/-- CPython dict assignment d[k] = v: replaces the value in place when the
key is present, otherwise appends the new pair at the end. -/
def dictInsert : List (String × Record) → String → Record → List (String × Record)
  | [], k, v => [(k, v)]
  | (k1, v1) :: rest, k, v =>
    if k1 = k then (k, v) :: rest else (k1, v1) :: dictInsert rest k v

/-- CPython dict lookup d.get(k). -/
def lookupKey : List (String × Record) → String → Option Record
  | [], _ => none
  | (k1, v1) :: rest, k => if k1 = k then some v1 else lookupKey rest k

/-- In-place mutation of the record aliased under key k (the record object
returned by find lives inside the dict, so mutating it replaces the value
stored under that key without moving it). -/
def updateVal : List (String × Record) → String → Record → List (String × Record)
  | [], _, _ => []
  | (k1, v1) :: rest, k, v =>
    if k1 = k then (k1, v) :: rest else (k1, v1) :: updateVal rest k v

/-- AddressBook: self.contacts = {}, a dict from name text to Record. -/
structure AddressBook where
  contacts : List (String × Record)
  deriving DecidableEq

/-- AddressBook.__init__. -/
def AddressBook.empty : AddressBook := ⟨[]⟩

/-- AddressBook.add_record: self.contacts[record.name.value] = record. -/
def AddressBook.add_record (b : AddressBook) (r : Record) : AddressBook :=
  ⟨dictInsert b.contacts r.name.value r⟩

/-- AddressBook.find: self.contacts.get(name). -/
def AddressBook.find (b : AddressBook) (k : String) : Option Record :=
  lookupKey b.contacts k

/-- Mutation of the record stored under an existing key. -/
def AddressBook.updateAt (b : AddressBook) (k : String) (r : Record) : AddressBook :=
  ⟨updateVal b.contacts k r⟩

/-- The loop body of AddressBook.get_upcoming_birthdays over
self.contacts.values(). -/
def upcomingAux (today next_week : PyDate) : List (String × Record) → List String
  | [] => []
  | (_, record) :: rest =>
    match record.birthday with
    | some bd =>
      if (bd.value.month = today.month ∧ bd.value.day ≥ today.day)
          ∨ (bd.value.month = next_week.month ∧ bd.value.day ≤ next_week.day)
      then record.name.value :: upcomingAux today next_week rest
      else upcomingAux today next_week rest
    | none => upcomingAux today next_week rest

/-- AddressBook.get_upcoming_birthdays with today = datetime.now() passed in
as a parameter and next_week = today + timedelta(days=7). -/
def AddressBook.get_upcoming_birthdays (b : AddressBook) (today : PyDate) : List String :=
  upcomingAux today (addDays today 7) b.contacts

/-- The scan loop of change_contact: find the first phone whose value equals
old_phone and set its value to new_phone directly (no re-validation). -/
def replacePhone : List Phone → String → String → Option (List Phone)
  | [], _, _ => none
  | p :: ps, oldT, newT =>
    if p.value = oldT then some (⟨newT⟩ :: ps)
    else (replacePhone ps oldT newT).map (p :: ·)

/-- add_contact(args, book) under input_error: returns the printed status
string and the book after the call. -/
def add_contact (args : List String) (book : AddressBook) : String × AddressBook :=
  match args with
  | name :: phone :: _ =>
    (match book.find name with
     | some record =>
       if phone ≠ ("") then
         match record.add_phone phone with
         | .ok r => (("Contact updated."), book.updateAt name r)
         | .error e => (e.msg, book)
       else (("Contact updated."), book)
     | none =>
       match Record.new name with
       | .error e => (e.msg, book)
       | .ok record =>
         let book1 := book.add_record record
         if phone ≠ ("") then
           match record.add_phone phone with
           | .ok r => (("Contact added."), book1.updateAt name r)
           | .error e => (e.msg, book1)
         else (("Contact added."), book1))
  | _ => (("Please provide both name and phone number."), book)

/-- change_contact(args, book) under input_error.  With more than three
arguments the tuple unpacking itself raises a ValueError which input_error
turns into its message. -/
def change_contact (args : List String) (book : AddressBook) : String × AddressBook :=
  match args with
  | [name, old_phone, new_phone] =>
    (match book.find name with
     | none => (("Contact not found."), book)
     | some record =>
       match replacePhone record.phones old_phone new_phone with
       | some ps =>
         (("Updated ") ++ name ++ ("\x27s phone from ") ++ old_phone
            ++ (" to ") ++ new_phone ++ ("."),
          book.updateAt name { record with phones := ps })
       | none =>
         (("Phone ") ++ old_phone ++ (" not found for ") ++ name ++ ("."), book))
  | _ =>
    if args.length < 3 then
      (("Please provide name, old phone number, and new phone number."), book)
    else (("too many values to unpack (expected 3)"), book)

/-- show_phone(args, book) under input_error. -/
def show_phone (args : List String) (book : AddressBook) : String :=
  match args with
  | name :: _ =>
    (match book.find name with
     | none => ("Contact not found.")
     | some record =>
       name ++ ("\x27s phone numbers: ")
         ++ String.intercalate (", ") (record.phones.map Phone.value))
  | [] => ("Please provide a name.")

/-- show_all_contacts(book) under input_error. -/
def show_all_contacts (book : AddressBook) : String :=
  if book.contacts.isEmpty then ("No contacts in the address book.")
  else
    String.intercalate ("\n")
      (book.contacts.map fun kv =>
        kv.1 ++ (": ") ++ String.intercalate (", ") (kv.2.phones.map Phone.value))

/-- add_birthday(args, book) under input_error (the command handler, not the
Record method). -/
def add_birthday (args : List String) (book : AddressBook) : String × AddressBook :=
  match args with
  | [name, birthday] =>
    (match book.find name with
     | none => (("Contact not found."), book)
     | some record =>
       match record.add_birthday birthday with
       | .ok r => (("Birthday for ") ++ name ++ (" added."), book.updateAt name r)
       | .error e => (e.msg, book))
  | _ =>
    if args.length < 2 then (("Please provide both name and birthday."), book)
    else (("too many values to unpack (expected 2)"), book)

/-- show_birthday(args, book) under input_error. -/
def show_birthday (args : List String) (book : AddressBook) : String :=
  match args with
  | name :: _ =>
    (match book.find name with
     | none => ("Contact not found.")
     | some record =>
       match record.get_birthday with
       | some d => name ++ ("\x27s birthday is on ") ++ strftimeDMY d
       | none => name ++ (" has no birthday recorded."))
  | [] => ("Please provide a name.")

/-- birthdays(args, book) under input_error, with today passed in. -/
def birthdays (_args : List String) (book : AddressBook) (today : PyDate) : String :=
  let up := book.get_upcoming_birthdays today
  if up.isEmpty then ("No upcoming birthdays.")
  else ("Upcoming birthdays: ") ++ String.intercalate (", ") up

/-- Helper for parse_input: str.split() splits on runs of whitespace and
never produces empty tokens. -/
def splitWsAux : List Char → List Char → List String
  | [], acc => if acc.isEmpty then [] else [String.mk acc.reverse]
  | c :: rest, acc =>
    if c.isWhitespace then
      if acc.isEmpty then splitWsAux rest []
      else String.mk acc.reverse :: splitWsAux rest []
    else splitWsAux rest (c :: acc)

/-- parse_input(user_input): user_input.split(). -/
def parse_input (s : String) : List String :=
  splitWsAux s.data []

/-- Outcome of one iteration of the main loop on one input line: an uncaught
exception (crash), a printed line and the updated book, or the good-bye
path of the close and exit commands. -/
inductive StepResult where
  | crash (msg : String)
  | cont (out : String) (book : AddressBook)
  | exit (out : String) (book : AddressBook)
  deriving DecidableEq

/-- One iteration of the while loop of main(): the starred unpacking
command, *args = parse_input(user_input) raises an uncaught ValueError when
the line has no tokens; every other path dispatches to a handler that is
wrapped by input_error and therefore returns a string. -/
def processLine (line : String) (book : AddressBook) (today : PyDate) : StepResult :=
  match parse_input line with
  | [] => .crash ("not enough values to unpack (expected at least 1, got 0)")
  | command :: args =>
    if command = ("close") ∨ command = ("exit") then .exit ("Good bye!") book
    else if command = ("hello") then .cont ("How can I help you?") book
    else if command = ("add") then
      .cont (add_contact args book).1 (add_contact args book).2
    else if command = ("change") then
      .cont (change_contact args book).1 (change_contact args book).2
    else if command = ("phone") then .cont (show_phone args book) book
    else if command = ("all") then .cont (show_all_contacts book) book
    else if command = ("add-birthday") then
      .cont (add_birthday args book).1 (add_birthday args book).2
    else if command = ("show-birthday") then .cont (show_birthday args book) book
    else if command = ("birthdays") then .cont (birthdays args book today) book
    else .cont ("Invalid command.") book

/-- Address books reachable from the empty book by the data-model
operations: add_record, and in-place record updates (add_phone,
add_birthday, and the phone replacement performed by change_contact) applied
to a record found in the book. -/
inductive Reachable : AddressBook → Prop
  | empty : Reachable AddressBook.empty
  | add_rec {b : AddressBook} (r : Record) :
      Reachable b → Reachable (b.add_record r)
  | add_ph {b : AddressBook} {k s : String} {r r2 : Record} :
      Reachable b → b.find k = some r → r.add_phone s = .ok r2 →
      Reachable (b.updateAt k r2)
  | add_bd {b : AddressBook} {k s : String} {r r2 : Record} :
      Reachable b → b.find k = some r → r.add_birthday s = .ok r2 →
      Reachable (b.updateAt k r2)
  | upd_ph {b : AddressBook} {k oldT newT : String} {r : Record} {ps : List Phone} :
      Reachable b → b.find k = some r → replacePhone r.phones oldT newT = some ps →
      Reachable (b.updateAt k { r with phones := ps })

/- ## Helper lemmas -/

theorem all_takeWhile (p : Char → Bool) (l : List Char) :
    (l.takeWhile p).all p = true := by
  induction l with
  | nil => rfl
  | cons c t ih =>
    rw [List.takeWhile_cons]
    split
    · simp [List.all_cons, *]
    · rfl

theorem takeWhile_append_of_all {p : Char → Bool} (ds r : List Char)
    (h1 : ds.all p = true) (h2 : ∀ c, r.head? = some c → p c = false) :
    (ds ++ r).takeWhile p = ds ∧ (ds ++ r).dropWhile p = r := by
  induction ds with
  | nil =>
    simp only [List.nil_append]
    cases r with
    | nil => simp
    | cons c t =>
      have hc := h2 c rfl
      simp [List.takeWhile_cons, List.dropWhile_cons, hc]
  | cons d ds ih =>
    simp only [List.all_cons, Bool.and_eq_true] at h1
    have hrec := ih h1.2
    simp [List.takeWhile_cons, List.dropWhile_cons, h1.1, hrec.1, hrec.2]

theorem dollarEnd_iff (rest : List Char) :
    dollarEnd rest = true ↔ rest = [] ∨ rest = ['\n'] := by
  match rest with
  | [] => simp [dollarEnd]
  | [c] => simp [dollarEnd]
  | c1 :: c2 :: t => simp [dollarEnd]

theorem nDigitsThenEnd_iff (n : Nat) : ∀ rest : List Char,
    nDigitsThenEnd n rest = true ↔
      ∃ ds : List Char, ds.length = n ∧ ds.all isDigitChar = true ∧
        (rest = ds ∨ rest = ds ++ ['\n']) := by
  induction n with
  | zero =>
    intro rest
    rw [show nDigitsThenEnd 0 rest = dollarEnd rest from rfl, dollarEnd_iff]
    constructor
    · intro h
      exact ⟨[], rfl, rfl, by simpa using h⟩
    · rintro ⟨ds, hlen, -, hor⟩
      have : ds = [] := List.length_eq_zero.mp hlen
      subst this
      simpa using hor
  | succ n ih =>
    intro rest
    cases rest with
    | nil =>
      constructor
      · intro h
        exact absurd h (by simp [nDigitsThenEnd])
      · rintro ⟨ds, hlen, -, (h | h)⟩
        · rw [← h] at hlen
          simp at hlen
        · have := congrArg List.length h
          simp at this
    | cons c t =>
      simp only [nDigitsThenEnd, Bool.and_eq_true]
      constructor
      · rintro ⟨hc, hnd⟩
        obtain ⟨ds, hlen, hall, hor⟩ := (ih t).1 hnd
        refine ⟨c :: ds, by simp [hlen], by simp [List.all_cons, hc, hall], ?_⟩
        rcases hor with h | h
        · exact .inl (by rw [h])
        · exact .inr (by rw [h]; rfl)
      · rintro ⟨ds, hlen, hall, hor⟩
        cases ds with
        | nil => simp at hlen
        | cons d ds =>
          simp only [List.all_cons, Bool.and_eq_true] at hall
          rcases hor with h | h
          · rw [List.cons.injEq] at h
            refine ⟨h.1 ▸ hall.1, (ih t).2 ⟨ds, by simpa using hlen, hall.2, .inl h.2⟩⟩
          · rw [List.cons_append, List.cons.injEq] at h
            refine ⟨h.1 ▸ hall.1, (ih t).2 ⟨ds, by simpa using hlen, hall.2, .inr h.2⟩⟩

theorem mem_upcomingAux (today nw : PyDate) (l : List (String × Record)) (n : String) :
    n ∈ upcomingAux today nw l ↔
      ∃ k r, (k, r) ∈ l ∧ r.name.value = n ∧
        ∃ bd, r.birthday = some bd ∧
          ((bd.value.month = today.month ∧ bd.value.day ≥ today.day) ∨
           (bd.value.month = nw.month ∧ bd.value.day ≤ nw.day)) := by
  induction l with
  | nil => simp [upcomingAux]
  | cons kv rest ih =>
    obtain ⟨k0, r0⟩ := kv
    cases hb : r0.birthday with
    | none =>
      simp only [upcomingAux, hb]
      rw [ih]
      constructor
      · rintro ⟨k, r, hm, hn, bd, hbd, hc⟩
        exact ⟨k, r, List.mem_cons_of_mem _ hm, hn, bd, hbd, hc⟩
      · rintro ⟨k, r, hm, hn, bd, hbd, hc⟩
        rcases List.mem_cons.mp hm with h | h
        · injection h with h1 h2
          subst h2
          rw [hb] at hbd
          exact absurd hbd (by simp)
        · exact ⟨k, r, h, hn, bd, hbd, hc⟩
    | some bd0 =>
      by_cases hc0 : (bd0.value.month = today.month ∧ bd0.value.day ≥ today.day)
          ∨ (bd0.value.month = nw.month ∧ bd0.value.day ≤ nw.day)
      · simp only [upcomingAux, hb]
        rw [if_pos hc0]
        simp only [List.mem_cons]
        rw [ih]
        constructor
        · rintro (rfl | ⟨k, r, hm, hn, bd, hbd, hc⟩)
          · exact ⟨k0, r0, .inl rfl, rfl, bd0, hb, hc0⟩
          · exact ⟨k, r, .inr hm, hn, bd, hbd, hc⟩
        · rintro ⟨k, r, hm, hn, bd, hbd, hc⟩
          rcases hm with h | h
          · injection h with h1 h2
            subst h2
            exact .inl hn.symm
          · exact .inr ⟨k, r, h, hn, bd, hbd, hc⟩
      · simp only [upcomingAux, hb]
        rw [if_neg hc0, ih]
        constructor
        · rintro ⟨k, r, hm, hn, bd, hbd, hc⟩
          exact ⟨k, r, List.mem_cons_of_mem _ hm, hn, bd, hbd, hc⟩
        · rintro ⟨k, r, hm, hn, bd, hbd, hc⟩
          rcases List.mem_cons.mp hm with h | h
          · injection h with h1 h2
            subst h2
            rw [hb] at hbd
            injection hbd with h3
            subst h3
            exact absurd hc hc0
          · exact ⟨k, r, h, hn, bd, hbd, hc⟩

theorem replacePhone_none (ps : List Phone) (oldT newT : String)
    (h : ∀ p ∈ ps, p.value ≠ oldT) : replacePhone ps oldT newT = none := by
  induction ps with
  | nil => rfl
  | cons p ps ih =>
    simp only [replacePhone]
    rw [if_neg (h p (List.mem_cons_self p ps)),
      ih (fun q hq => h q (List.mem_cons_of_mem _ hq))]
    rfl

theorem replacePhone_found (pre : List Phone) (p : Phone) (post : List Phone)
    (oldT newT : String) (hpre : ∀ q ∈ pre, q.value ≠ oldT) (hp : p.value = oldT) :
    replacePhone (pre ++ p :: post) oldT newT = some (pre ++ ⟨newT⟩ :: post) := by
  induction pre with
  | nil => simp [replacePhone, hp]
  | cons q pre ih =>
    have h1 : q.value ≠ oldT := hpre q (List.mem_cons_self q pre)
    have h2 := ih (fun x hx => hpre x (List.mem_cons_of_mem _ hx))
    simp [replacePhone, h1, h2]

theorem filter_key_eq_nil (l : List (String × Record)) (k : String)
    (h : k ∉ l.map Prod.fst) : l.filter (fun kv => kv.1 == k) = [] := by
  induction l with
  | nil => rfl
  | cons kv rest ih =>
    simp only [List.map_cons, List.mem_cons] at h
    push_neg at h
    have hb : (kv.1 == k) = false := beq_eq_false_iff_ne.mpr (fun hh => h.1 hh.symm)
    simp [List.filter_cons, hb, ih h.2]

theorem dictInsert_filter (l : List (String × Record)) (k : String) (v : Record)
    (h : (l.map Prod.fst).Nodup) :
    (dictInsert l k v).filter (fun kv => kv.1 == k) = [(k, v)] := by
  induction l with
  | nil => simp [dictInsert]
  | cons kv rest ih =>
    obtain ⟨k1, v1⟩ := kv
    simp only [List.map_cons, List.nodup_cons] at h
    by_cases hk : k1 = k
    · subst hk
      simp [dictInsert, List.filter_cons, filter_key_eq_nil rest k1 h.1]
    · simp [dictInsert, hk, List.filter_cons, ih h.2]

theorem dictInsert_keys (l : List (String × Record)) (k : String) (v : Record) :
    (dictInsert l k v).map Prod.fst =
      if k ∈ l.map Prod.fst then l.map Prod.fst else l.map Prod.fst ++ [k] := by
  induction l with
  | nil => simp [dictInsert]
  | cons kv rest ih =>
    obtain ⟨k1, v1⟩ := kv
    by_cases hk : k1 = k
    · subst hk
      simp [dictInsert]
    · have hk2 : ¬(k = k1) := fun hh => hk hh.symm
      by_cases hm : k ∈ rest.map Prod.fst
      · simp [dictInsert, hk, hk2, hm, ih, List.mem_cons]
      · simp [dictInsert, hk, hk2, hm, ih, List.mem_cons]

theorem dictInsert_nodup (l : List (String × Record)) (k : String) (v : Record)
    (h : (l.map Prod.fst).Nodup) : ((dictInsert l k v).map Prod.fst).Nodup := by
  rw [dictInsert_keys]
  split
  · exact h
  · next hm =>
    refine List.Nodup.append h (List.nodup_singleton k) ?_
    intro a ha hb
    rw [List.mem_singleton] at hb
    subst hb
    exact hm ha

theorem lookupKey_dictInsert_self (l : List (String × Record)) (k : String) (v : Record) :
    lookupKey (dictInsert l k v) k = some v := by
  induction l with
  | nil => simp [dictInsert, lookupKey]
  | cons kv rest ih =>
    obtain ⟨k1, v1⟩ := kv
    by_cases hk : k1 = k
    · subst hk
      simp [dictInsert, lookupKey]
    · simp [dictInsert, lookupKey, hk, ih]

/- ## Claim theorems -/

/-- Claim C2, counterexample: the Python dollar anchor also matches just
before a single trailing newline, so Phone accepts the 14-character text
plus-380123456789-newline even though it has an extra character beyond the
13 characters the claim allows. -/
theorem phone_accepts_trailing_newline :
    Phone.make ("+380123456789\n") = .ok ⟨("+380123456789\n")⟩ ∧
      ("+380123456789\n").length = 14 :=
  ⟨by decide, by decide⟩

/-- Claim C2 as amended: Phone(t) succeeds exactly when t is the literal
'+380' followed by exactly 9 digits, optionally followed by one single
trailing newline character (which Python's dollar anchor tolerates). -/
theorem phone_validation_amended (s : String) :
    (∃ p, Phone.make s = .ok p) ↔
      ∃ ds : List Char, ds.length = 9 ∧ ds.all isDigitChar = true ∧
        (s.data = '+' :: '3' :: '8' :: '0' :: ds ∨
         s.data = '+' :: '3' :: '8' :: '0' :: (ds ++ ['\n'])) := by
  have hmk : (∃ p, Phone.make s = .ok p) ↔ validate_phone s = true := by
    constructor
    · rintro ⟨p, hp⟩
      by_cases h : validate_phone s
      · exact h
      · simp [Phone.make, h] at hp
    · intro h
      exact ⟨⟨s⟩, by simp [Phone.make, h]⟩
  rw [hmk]
  unfold validate_phone
  cases hd : s.data with
  | nil => simp
  | cons c1 r1 =>
    cases r1 with
    | nil => simp
    | cons c2 r2 =>
      cases r2 with
      | nil => simp
      | cons c3 r3 =>
        cases r3 with
        | nil => simp
        | cons c4 rest =>
          simp only [Bool.and_eq_true, beq_iff_eq, List.cons.injEq]
          constructor
          · rintro ⟨⟨⟨⟨rfl, rfl⟩, rfl⟩, rfl⟩, hnd⟩
            obtain ⟨ds, hlen, hall, hor⟩ := (nDigitsThenEnd_iff 9 rest).1 hnd
            exact ⟨ds, hlen, hall, by
              rcases hor with h | h
              · exact .inl ⟨rfl, rfl, rfl, rfl, h⟩
              · exact .inr ⟨rfl, rfl, rfl, rfl, h⟩⟩
          · rintro ⟨ds, hlen, hall, (⟨rfl, rfl, rfl, rfl, h⟩ | ⟨rfl, rfl, rfl, rfl, h⟩)⟩
            · exact ⟨⟨⟨⟨rfl, rfl⟩, rfl⟩, rfl⟩,
                (nDigitsThenEnd_iff 9 rest).2 ⟨ds, hlen, hall, .inl h⟩⟩
            · exact ⟨⟨⟨⟨rfl, rfl⟩, rfl⟩, rfl⟩,
                (nDigitsThenEnd_iff 9 rest).2 ⟨ds, hlen, hall, .inr h⟩⟩

/-- Claim C1: a name is in the result of get_upcoming_birthdays exactly when
the book holds a record with that name that has a birthday b with
(b.month = today.month and b.day >= today.day) or (b.month = next_week.month
and b.day <= next_week.day), where next_week = today + 7 days; records
without a birthday are never included, and the empty book yields []. -/
theorem upcoming_birthdays_spec (b : AddressBook) (today : PyDate) (n : String) :
    (n ∈ b.get_upcoming_birthdays today ↔
      ∃ k r, (k, r) ∈ b.contacts ∧ r.name.value = n ∧
        ∃ bd, r.birthday = some bd ∧
          ((bd.value.month = today.month ∧ bd.value.day ≥ today.day) ∨
           (bd.value.month = (addDays today 7).month ∧
              bd.value.day ≤ (addDays today 7).day))) ∧
    AddressBook.empty.get_upcoming_birthdays today = [] :=
  ⟨mem_upcomingAux today (addDays today 7) b.contacts n, rfl⟩

/-- Claim C3: the change operation scans the phones in order; with no match
it yields none and change_contact answers with the PhoneNotFound message,
leaving the book untouched; with a first match at a decomposition
pre ++ p :: post it stores newText there directly (for any newText, valid
phone or not: no re-validation), leaving all other phones unchanged. -/
theorem change_contact_first_match (r : Record) (oldT newT : String) :
    ((∀ p ∈ r.phones, p.value ≠ oldT) → replacePhone r.phones oldT newT = none) ∧
    (∀ (pre : List Phone) (p : Phone) (post : List Phone),
        r.phones = pre ++ p :: post → (∀ q ∈ pre, q.value ≠ oldT) → p.value = oldT →
        replacePhone r.phones oldT newT = some (pre ++ ⟨newT⟩ :: post)) ∧
    (∀ (book : AddressBook) (name : String), book.find name = some r →
        (∀ p ∈ r.phones, p.value ≠ oldT) →
        change_contact [name, oldT, newT] book =
          (("Phone ") ++ oldT ++ (" not found for ") ++ name ++ ("."), book)) := by
  refine ⟨replacePhone_none r.phones oldT newT, ?_, ?_⟩
  · intro pre p post hdec hpre hp
    rw [hdec]
    exact replacePhone_found pre p post oldT newT hpre hp
  · intro book name hf hnone
    simp [change_contact, hf, replacePhone_none r.phones oldT newT hnone]

/-- Claim C3 witness: a record with phones x, y; replacing y with the
invalid text bad succeeds in place, and change with the absent value z
fails with the PhoneNotFound message and an unchanged book. -/
theorem change_contact_first_match_witness :
    replacePhone [⟨("x")⟩, ⟨("y")⟩] ("y") ("bad") = some [⟨("x")⟩, ⟨("bad")⟩] ∧
    change_contact [("A"), ("z"), ("w")]
        ⟨[(("A"), ⟨⟨("A")⟩, [⟨("x")⟩, ⟨("y")⟩], none⟩)]⟩ =
      ((("Phone ") ++ ("z") ++ (" not found for ") ++ ("A") ++ (".")),
        ⟨[(("A"), ⟨⟨("A")⟩, [⟨("x")⟩, ⟨("y")⟩], none⟩)]⟩) :=
  ⟨(change_contact_first_match ⟨⟨("A")⟩, [⟨("x")⟩, ⟨("y")⟩], none⟩ ("y") ("bad")).2.1
      [⟨("x")⟩] ⟨("y")⟩ [] rfl (by decide) rfl,
   (change_contact_first_match ⟨⟨("A")⟩, [⟨("x")⟩, ⟨("y")⟩], none⟩ ("z") ("w")).2.2
      _ ("A") (by decide) (by decide)⟩

/-- Claim C4: on a book whose keys are distinct (every CPython dict is),
adding r1 then r2 with the same name leaves exactly one entry under that
name, equal to r2; keys stay distinct and find returns r2.  add_record is
total, so overwriting is never an error. -/
theorem add_record_overwrite (b : AddressBook) (r1 r2 : Record)
    (hnd : (b.contacts.map Prod.fst).Nodup) (hname : r1.name.value = r2.name.value) :
    (((b.add_record r1).add_record r2).contacts.filter
        (fun kv => kv.1 == r2.name.value) = [(r2.name.value, r2)]) ∧
    (((b.add_record r1).add_record r2).contacts.filter
        (fun kv => kv.1 == r1.name.value) = [(r2.name.value, r2)]) ∧
    (((b.add_record r1).add_record r2).contacts.map Prod.fst).Nodup ∧
    ((b.add_record r1).add_record r2).find r2.name.value = some r2 := by
  have h1 : ((b.add_record r1).contacts.map Prod.fst).Nodup :=
    dictInsert_nodup _ _ _ hnd
  refine ⟨dictInsert_filter _ _ _ h1, ?_, dictInsert_nodup _ _ _ h1,
    lookupKey_dictInsert_self _ _ _⟩
  rw [hname]
  exact dictInsert_filter _ _ _ h1

/-- Claim C4 witness: adding two records named A to the empty book leaves
exactly the second one. -/
theorem add_record_overwrite_witness :
    ((AddressBook.empty.add_record ⟨⟨("A")⟩, [], none⟩).add_record
        ⟨⟨("A")⟩, [⟨("p")⟩], none⟩).contacts.filter
      (fun kv => kv.1 == ("A")) = [(("A"), ⟨⟨("A")⟩, [⟨("p")⟩], none⟩)] :=
  (add_record_overwrite AddressBook.empty ⟨⟨("A")⟩, [], none⟩
    ⟨⟨("A")⟩, [⟨("p")⟩], none⟩ (by decide) rfl).1

/-- Claim C7: add_phone appends Phone(t) at the end of the phone sequence
when t passes validation, and fails with InvalidPhone leaving the record
unchanged (no partial append) when it does not. -/
theorem add_phone_spec (r : Record) (s : String) :
    (validate_phone s = true →
      r.add_phone s = .ok { r with phones := r.phones ++ [⟨s⟩] }) ∧
    (validate_phone s = false → r.add_phone s = .error .invalidPhone) := by
  constructor
  · intro h
    simp [Record.add_phone, Phone.make, h, Except.map]
  · intro h
    simp [Record.add_phone, Phone.make, h, Except.map]

/-- Claim C7 witness: a valid phone is appended after the existing one; an
invalid phone is rejected. -/
theorem add_phone_spec_witness :
    Record.add_phone ⟨⟨("A")⟩, [⟨("+380000000000")⟩], none⟩ ("+380501234567") =
      .ok ⟨⟨("A")⟩, [⟨("+380000000000")⟩, ⟨("+380501234567")⟩], none⟩ ∧
    Record.add_phone ⟨⟨("A")⟩, [⟨("+380000000000")⟩], none⟩ ("123") =
      .error .invalidPhone :=
  ⟨(add_phone_spec ⟨⟨("A")⟩, [⟨("+380000000000")⟩], none⟩ ("+380501234567")).1
      (by decide),
   (add_phone_spec ⟨⟨("A")⟩, [⟨("+380000000000")⟩], none⟩ ("123")).2 (by decide)⟩

/-- Claim C9: add with a fresh name and an invalid phone is not atomic: the
record is inserted into the book before the phone is validated, so the call
answers with the phone validation message while the book now holds a record
with that name and an empty phone list. -/
theorem add_contact_nonatomic (book : AddressBook) (name phone : String)
    (hfind : book.find name = none) (hname : name ≠ ("")) (hphone : phone ≠ (""))
    (hval : validate_phone phone = false) :
    add_contact [name, phone] book =
      (("Invalid phone number format. Use +380XXXXXXXXX"),
        book.add_record ⟨⟨name⟩, [], none⟩) ∧
    (book.add_record ⟨⟨name⟩, [], none⟩).find name = some ⟨⟨name⟩, [], none⟩ := by
  constructor
  · simp [add_contact, hfind, hname, hphone, Record.new, Name.make,
      Record.add_phone, Phone.make, hval, VErr.msg, Except.map]
  · exact lookupKey_dictInsert_self book.contacts name ⟨⟨name⟩, [], none⟩

/-- Claim C9 witness: adding Bob with the invalid phone 123 to the empty
book answers with the phone error yet leaves Bob, phoneless, in the book. -/
theorem add_contact_nonatomic_witness :
    add_contact [("Bob"), ("123")] AddressBook.empty =
      (("Invalid phone number format. Use +380XXXXXXXXX"),
        AddressBook.empty.add_record ⟨⟨("Bob")⟩, [], none⟩) ∧
    (AddressBook.empty.add_record ⟨⟨("Bob")⟩, [], none⟩).find ("Bob") =
      some ⟨⟨("Bob")⟩, [], none⟩ :=
  add_contact_nonatomic AddressBook.empty ("Bob") ("123")
    (by decide) (by decide) (by decide) (by decide)

theorem dictInsert_mem {l : List (String × Record)} {k : String} {v : Record}
    {k1 : String} {v1 : Record} (h : (k1, v1) ∈ dictInsert l k v) :
    (k1, v1) = (k, v) ∨ (k1, v1) ∈ l := by
  induction l with
  | nil => simpa [dictInsert] using h
  | cons kv rest ih =>
    obtain ⟨k0, v0⟩ := kv
    by_cases hk : k0 = k
    · subst hk
      have hd : dictInsert ((k0, v0) :: rest) k0 v = (k0, v) :: rest := by
        simp [dictInsert]
      rw [hd] at h
      rcases List.mem_cons.mp h with h3 | h3
      · exact .inl h3
      · exact .inr (List.mem_cons_of_mem _ h3)
    · have hd : dictInsert ((k0, v0) :: rest) k v = (k0, v0) :: dictInsert rest k v := by
        simp [dictInsert, hk]
      rw [hd] at h
      rcases List.mem_cons.mp h with h3 | h3
      · exact .inr (by rw [h3]; exact List.mem_cons_self _ _)
      · rcases ih h3 with h4 | h4
        · exact .inl h4
        · exact .inr (List.mem_cons_of_mem _ h4)

theorem updateVal_mem {l : List (String × Record)} {k : String} {v : Record}
    {k1 : String} {v1 : Record} (h : (k1, v1) ∈ updateVal l k v) :
    (k1 = k ∧ v1 = v) ∨ (k1, v1) ∈ l := by
  induction l with
  | nil => simp [updateVal] at h
  | cons kv rest ih =>
    obtain ⟨k0, v0⟩ := kv
    by_cases hk : k0 = k
    · subst hk
      have hd : updateVal ((k0, v0) :: rest) k0 v = (k0, v) :: rest := by
        simp [updateVal]
      rw [hd] at h
      rcases List.mem_cons.mp h with h3 | h3
      · injection h3 with h1 h2
        exact .inl ⟨h1, h2⟩
      · exact .inr (List.mem_cons_of_mem _ h3)
    · have hd : updateVal ((k0, v0) :: rest) k v = (k0, v0) :: updateVal rest k v := by
        simp [updateVal, hk]
      rw [hd] at h
      rcases List.mem_cons.mp h with h3 | h3
      · exact .inr (by rw [h3]; exact List.mem_cons_self _ _)
      · rcases ih h3 with h4 | h4
        · exact .inl h4
        · exact .inr (List.mem_cons_of_mem _ h4)

theorem lookupKey_mem {l : List (String × Record)} {k : String} {r : Record}
    (h : lookupKey l k = some r) : (k, r) ∈ l := by
  induction l with
  | nil => simp [lookupKey] at h
  | cons kv rest ih =>
    obtain ⟨k0, v0⟩ := kv
    by_cases hk : k0 = k
    · subst hk
      have hd : lookupKey ((k0, v0) :: rest) k0 = some v0 := by simp [lookupKey]
      rw [hd] at h
      injection h with h1
      rw [← h1]
      exact List.mem_cons_self _ _
    · have hd : lookupKey ((k0, v0) :: rest) k = lookupKey rest k := by
        simp [lookupKey, hk]
      rw [hd] at h
      exact List.mem_cons_of_mem _ (ih h)

theorem find_mem {b : AddressBook} {k : String} {r : Record}
    (h : b.find k = some r) : (k, r) ∈ b.contacts :=
  lookupKey_mem h

theorem add_phone_name {r r2 : Record} {s : String}
    (h : r.add_phone s = .ok r2) : r2.name = r.name := by
  unfold Record.add_phone Phone.make at h
  by_cases hv : validate_phone s
  · simp only [if_pos hv, Except.map] at h
    injection h with h1
    rw [← h1]
  · simp [if_neg hv, Except.map] at h

theorem add_birthday_name {r r2 : Record} {s : String}
    (h : r.add_birthday s = .ok r2) : r2.name = r.name := by
  unfold Record.add_birthday at h
  cases hb : Birthday.make s with
  | ok b =>
    rw [hb] at h
    simp only [Except.map] at h
    injection h with h1
    rw [← h1]
  | error e =>
    rw [hb] at h
    simp [Except.map] at h

/-- Claim C10: in every book reachable from the empty book by add_record and
the record-updating operations (add_phone, add_birthday, the phone
replacement of change), every stored record is keyed by its own name:
find-style entries (k, r) always satisfy r.name.value = k. -/
theorem key_consistency (b : AddressBook) (hb : Reachable b) :
    ∀ k r, (k, r) ∈ b.contacts → r.name.value = k := by
  induction hb with
  | empty =>
    intro k r h
    simp [AddressBook.empty] at h
  | add_rec r hb ih =>
    intro k x hm
    rcases dictInsert_mem hm with h | h
    · injection h with h1 h2
      rw [h1, h2]
    · exact ih k x h
  | add_ph hb hf hok ih =>
    intro k2 x hm
    rcases updateVal_mem hm with ⟨h1, h2⟩ | h
    · rw [h1, h2, add_phone_name hok]
      exact ih _ _ (find_mem hf)
    · exact ih k2 x h
  | add_bd hb hf hok ih =>
    intro k2 x hm
    rcases updateVal_mem hm with ⟨h1, h2⟩ | h
    · rw [h1, h2, add_birthday_name hok]
      exact ih _ _ (find_mem hf)
    · exact ih k2 x h
  | upd_ph hb hf hok ih =>
    intro k2 x hm
    rcases updateVal_mem hm with ⟨h1, h2⟩ | h
    · rw [h1, h2]
      have hr := ih _ _ (find_mem hf)
      exact hr
    · exact ih k2 x h

/-- Claim C10 witness: after adding Alice and then updating her record in
place with a phone, the entry under the key Alice carries the name Alice. -/
theorem key_consistency_witness :
    (⟨⟨("Alice")⟩, [⟨("+380501234567")⟩], none⟩ : Record).name.value = ("Alice") := by
  have h1 : Reachable (AddressBook.empty.add_record ⟨⟨("Alice")⟩, [], none⟩) :=
    Reachable.add_rec _ Reachable.empty
  have h2 : Reachable ((AddressBook.empty.add_record
      ⟨⟨("Alice")⟩, [], none⟩).updateAt ("Alice")
        ⟨⟨("Alice")⟩, [⟨("+380501234567")⟩], none⟩) :=
    @Reachable.add_ph (AddressBook.empty.add_record ⟨⟨("Alice")⟩, [], none⟩)
      ("Alice") ("+380501234567") ⟨⟨("Alice")⟩, [], none⟩
      ⟨⟨("Alice")⟩, [⟨("+380501234567")⟩], none⟩ h1 (by decide) (by decide)
  exact key_consistency _ h2 ("Alice") _ (by decide)

/-- Claim C8 counterexample: a blank input line is split into no tokens and
the starred unpacking in the loop head raises an uncaught ValueError, so the
process does crash on one bad input line. -/
theorem empty_line_crashes :
    processLine ("") AddressBook.empty ⟨2024, 1, 1⟩ =
      .crash ("not enough values to unpack (expected at least 1, got 0)") := by
  decide

/-- Claim C8 as amended: for every input line that contains at least one
token, every error raised by a handler is converted to a status string by
input_error and the loop iteration never crashes; only a token-less
(empty or all-whitespace) line crashes the loop with the unpacking
ValueError raised outside every handler. -/
theorem process_line_no_crash_amended (line : String) (book : AddressBook)
    (today : PyDate) (msg : String) (h : parse_input line ≠ []) :
    processLine line book today ≠ .crash msg := by
  cases hp : parse_input line with
  | nil => exact absurd hp h
  | cons c args =>
    simp only [processLine, hp]
    split_ifs <;> simp

/-- Claim C8 witness: the add command line never crashes one iteration. -/
theorem process_line_no_crash_amended_witness :
    parse_input ("add Bob") ≠ [] ∧
    processLine ("add Bob") AddressBook.empty ⟨2024, 1, 1⟩ ≠ .crash ("x") :=
  ⟨by decide,
   process_line_no_crash_amended ("add Bob") AddressBook.empty ⟨2024, 1, 1⟩ ("x")
     (by decide)⟩

theorem foldl_digits_shift (ds : List Char) : ∀ a : Nat,
    ds.foldl (fun x c => 10 * x + (c.toNat - 48)) a
      = a * 10 ^ ds.length + digitsToNat ds := by
  induction ds with
  | nil =>
    intro a
    simp [digitsToNat]
  | cons c t ih =>
    intro a
    unfold digitsToNat
    simp only [List.foldl_cons, List.length_cons]
    rw [ih, ih (10 * 0 + (c.toNat - 48))]
    ring

theorem digitsToNat_lt (ds : List Char) (h : ds.all isDigitChar = true) :
    digitsToNat ds < 10 ^ ds.length := by
  induction ds with
  | nil => simp [digitsToNat]
  | cons c t ih =>
    simp only [List.all_cons, Bool.and_eq_true] at h
    have hc : c.toNat - 48 ≤ 9 := by
      have h2 := h.1
      simp only [isDigitChar, Bool.and_eq_true, decide_eq_true_eq] at h2
      omega
    have ht := ih h.2
    unfold digitsToNat
    rw [List.foldl_cons, foldl_digits_shift]
    have h9 : (10 * 0 + (c.toNat - 48)) * 10 ^ t.length ≤ 9 * 10 ^ t.length :=
      Nat.mul_le_mul_right _ (by omega)
    have hpow : 10 ^ (c :: t).length = 10 * 10 ^ t.length := by
      simp [List.length_cons]
      ring
    omega

theorem char_ofNat_digit (k : Nat) (h : k ≤ 9) :
    (Char.ofNat (48 + k)).toNat = 48 + k ∧ isDigitChar (Char.ofNat (48 + k)) = true := by
  interval_cases k <;> exact ⟨by decide, by decide⟩

theorem pad2_facts (n : Nat) (h : n < 100) :
    (pad2 n).all isDigitChar = true ∧ digitsToNat (pad2 n) = n ∧ (pad2 n).length = 2 := by
  have h1 := char_ofNat_digit (n / 10) (by omega)
  have h2 := char_ofNat_digit (n % 10) (by omega)
  refine ⟨by simp [pad2, h1.2, h2.2], ?_, rfl⟩
  unfold pad2 digitsToNat
  simp only [List.foldl_cons, List.foldl_nil]
  rw [h1.1, h2.1]
  omega

theorem pad4_facts (n : Nat) (h : n ≤ 9999) :
    (pad4 n).all isDigitChar = true ∧ digitsToNat (pad4 n) = n ∧ (pad4 n).length = 4 := by
  have h1 := char_ofNat_digit (n / 1000) (by omega)
  have h2 := char_ofNat_digit (n / 100 % 10) (by omega)
  have h3 := char_ofNat_digit (n / 10 % 10) (by omega)
  have h4 := char_ofNat_digit (n % 10) (by omega)
  refine ⟨by simp [pad4, h1.2, h2.2, h3.2, h4.2], ?_, rfl⟩
  unfold pad4 digitsToNat
  simp only [List.foldl_cons, List.foldl_nil]
  rw [h1.1, h2.1, h3.1, h4.1]
  omega

theorem fmtYear_eq_pad4 (n : Nat) (h : 1000 ≤ n) : fmtYear n = pad4 n := by
  unfold fmtYear
  rw [if_neg (by omega), if_neg (by omega), if_neg (by omega)]

theorem daysInMonth_le (y m : Nat) : daysInMonth y m ≤ 31 := by
  unfold daysInMonth
  split_ifs <;> omega

theorem takeWhile_all_digits (ds : List Char) (h : ds.all isDigitChar = true) :
    ds.takeWhile isDigitChar = ds ∧ ds.dropWhile isDigitChar = [] := by
  have := takeWhile_append_of_all ds [] h (by intro c hc; simp at hc)
  simpa using this

theorem head_dot_not_digit (l : List Char) :
    ∀ c, ('.' :: l).head? = some c → isDigitChar c = false := by
  intro c hc
  injection hc with h
  rw [← h]
  decide

theorem pyStrptimeDMY_build (ds ms ys : List Char)
    (hds : ds.all isDigitChar = true) (hms : ms.all isDigitChar = true)
    (hys : ys.all isDigitChar = true)
    (hd : dayTok ds = true) (hm : monthTok ms = true) (hy : ys.length = 4) :
    pyStrptimeDMY (ds ++ '.' :: (ms ++ '.' :: ys)) =
      some (digitsToNat ds, digitsToNat ms, digitsToNat ys) := by
  have h1 := takeWhile_append_of_all ds ('.' :: (ms ++ '.' :: ys)) hds
    (head_dot_not_digit _)
  have h2 := takeWhile_append_of_all ms ('.' :: ys) hms (head_dot_not_digit _)
  have h3 := takeWhile_all_digits ys hys
  simp only [pyStrptimeDMY, h1.1, h1.2, h2.1, h2.2, h3.1, h3.2]
  simp [hd, hm, hy]

theorem pyStrptimeDMY_destruct (cs : List Char) (d m y : Nat)
    (h : pyStrptimeDMY cs = some (d, m, y)) :
    ∃ ds ms ys : List Char,
      cs = ds ++ '.' :: (ms ++ '.' :: ys) ∧
      ds.all isDigitChar = true ∧ ms.all isDigitChar = true ∧
      ys.all isDigitChar = true ∧
      dayTok ds = true ∧ monthTok ms = true ∧ ys.length = 4 ∧
      d = digitsToNat ds ∧ m = digitsToNat ms ∧ y = digitsToNat ys := by
  unfold pyStrptimeDMY at h
  rcases hdw : cs.dropWhile isDigitChar with _ | ⟨dot1, r2⟩
  · simp [hdw] at h
  · simp only [hdw] at h
    by_cases hdot : dot1 = '.'
    case neg => simp [hdot] at h
    subst hdot
    rw [if_pos rfl] at h
    rcases hdw2 : r2.dropWhile isDigitChar with _ | ⟨dot2, r4⟩
    · simp [hdw2] at h
    · simp only [hdw2] at h
      by_cases hdot2 : dot2 = '.'
      case neg => simp [hdot2] at h
      subst hdot2
      rw [if_pos rfl] at h
      rcases hcond : ((r4.dropWhile isDigitChar).isEmpty
          && dayTok (cs.takeWhile isDigitChar)
          && monthTok (r2.takeWhile isDigitChar)
          && ((r4.takeWhile isDigitChar).length == 4)) with _ | _
      · rw [hcond] at h
        simp at h
      · rw [hcond] at h
        simp only [if_true] at h
        injection h with h5
        simp only [Bool.and_eq_true, List.isEmpty_iff, beq_iff_eq] at hcond
        obtain ⟨⟨⟨hr5, hdtok⟩, hmtok⟩, hylen⟩ := hcond
        obtain ⟨h6, h7, h8⟩ :
            digitsToNat (cs.takeWhile isDigitChar) = d ∧
            digitsToNat (r2.takeWhile isDigitChar) = m ∧
            digitsToNat (r4.takeWhile isDigitChar) = y := by
          simpa [Prod.ext_iff] using h5
        refine ⟨cs.takeWhile isDigitChar, r2.takeWhile isDigitChar,
          r4.takeWhile isDigitChar, ?_, all_takeWhile _ _, all_takeWhile _ _,
          all_takeWhile _ _, hdtok, hmtok, hylen, h6.symm, h7.symm, h8.symm⟩
        have e1 : cs = cs.takeWhile isDigitChar ++ ('.' :: r2) := by
          rw [← hdw]
          exact (List.takeWhile_append_dropWhile isDigitChar cs).symm
        have e2 : r2 = r2.takeWhile isDigitChar ++ ('.' :: r4) := by
          rw [← hdw2]
          exact (List.takeWhile_append_dropWhile isDigitChar r2).symm
        have e3 : r4 = r4.takeWhile isDigitChar := by
          have e4 := (List.takeWhile_append_dropWhile isDigitChar r4).symm
          rw [hr5] at e4
          simpa using e4
        calc cs = cs.takeWhile isDigitChar ++ ('.' :: r2) := e1
          _ = cs.takeWhile isDigitChar
              ++ ('.' :: (r2.takeWhile isDigitChar ++ ('.' :: r4))) := by
            conv_lhs => rw [e2]
          _ = cs.takeWhile isDigitChar
              ++ ('.' :: (r2.takeWhile isDigitChar
                ++ ('.' :: r4.takeWhile isDigitChar))) := by
            conv_lhs => rw [e3]

theorem birthday_make_eq_some (s : String) (d m y : Nat)
    (hp : pyStrptimeDMY s.data = some (d, m, y)) :
    Birthday.make s =
      if 1 ≤ y ∧ y ≤ 9999 ∧ 1 ≤ m ∧ m ≤ 12 ∧ 1 ≤ d ∧ d ≤ daysInMonth y m
      then .ok ⟨⟨y, m, d⟩⟩ else .error .invalidDate := by
  unfold Birthday.make
  rw [hp]

theorem birthday_make_eq_none (s : String)
    (hp : pyStrptimeDMY s.data = none) : Birthday.make s = .error .invalidDate := by
  unfold Birthday.make
  rw [hp]

/-- Claim C5 counterexample: strptime with the %d.%m.%Y format also accepts
single-digit day and month fields, so Birthday succeeds on 5.6.1990 (8
characters, hence not of the 2-digit-day 2-digit-month 4-digit-year shape the
claim requires for success). -/
theorem birthday_single_digit_accepted :
    Birthday.make ("5.6.1990") = .ok ⟨⟨1990, 6, 5⟩⟩ ∧ ("5.6.1990").length ≠ 10 :=
  ⟨by decide, by decide⟩

/-- Claim C5 as amended: Birthday(t) fails with InvalidDate exactly when t is
not of the form day dot month dot year with a 1-or-2-digit day, a
1-or-2-digit month and an exactly-4-digit year, with day between 1 and the
length of that month in that year, month between 1 and 12, and year at least
1 (datetime rejects year 0); the parse succeeds on all such texts and the
stored representation is the date triple. -/
theorem birthday_validation_amended (s : String) :
    Birthday.make s = .error .invalidDate ↔
      ¬ ∃ ds ms ys : List Char,
        s.data = ds ++ '.' :: (ms ++ '.' :: ys) ∧
        ds.all isDigitChar = true ∧ ms.all isDigitChar = true ∧
        ys.all isDigitChar = true ∧
        (ds.length = 1 ∨ ds.length = 2) ∧ (ms.length = 1 ∨ ms.length = 2) ∧
        ys.length = 4 ∧
        1 ≤ digitsToNat ds ∧
        digitsToNat ds ≤ daysInMonth (digitsToNat ys) (digitsToNat ms) ∧
        1 ≤ digitsToNat ms ∧ digitsToNat ms ≤ 12 ∧ 1 ≤ digitsToNat ys := by
  have hsucc : (∃ b, Birthday.make s = .ok b) ↔
      (∃ ds ms ys : List Char,
        s.data = ds ++ '.' :: (ms ++ '.' :: ys) ∧
        ds.all isDigitChar = true ∧ ms.all isDigitChar = true ∧
        ys.all isDigitChar = true ∧
        (ds.length = 1 ∨ ds.length = 2) ∧ (ms.length = 1 ∨ ms.length = 2) ∧
        ys.length = 4 ∧
        1 ≤ digitsToNat ds ∧
        digitsToNat ds ≤ daysInMonth (digitsToNat ys) (digitsToNat ms) ∧
        1 ≤ digitsToNat ms ∧ digitsToNat ms ≤ 12 ∧ 1 ≤ digitsToNat ys) := by
    constructor
    · rintro ⟨b, hb⟩
      rcases hp : pyStrptimeDMY s.data with _ | ⟨d, m, y⟩
      · rw [birthday_make_eq_none s hp] at hb
        simp at hb
      · by_cases hr : 1 ≤ y ∧ y ≤ 9999 ∧ 1 ≤ m ∧ m ≤ 12 ∧ 1 ≤ d ∧ d ≤ daysInMonth y m
        · obtain ⟨ds, ms, ys, hcs, ha1, ha2, ha3, hdtok, hmtok, hylen, hde, hme, hye⟩ :=
            pyStrptimeDMY_destruct s.data d m y hp
          subst hde
          subst hme
          subst hye
          simp only [dayTok, Bool.and_eq_true, decide_eq_true_eq] at hdtok
          simp only [monthTok, Bool.and_eq_true, decide_eq_true_eq] at hmtok
          exact ⟨ds, ms, ys, hcs, ha1, ha2, ha3, hdtok.1.1, hmtok.1.1, hylen,
            hr.2.2.2.2.1, hr.2.2.2.2.2, hr.2.2.1, hr.2.2.2.1, hr.1⟩
        · rw [birthday_make_eq_some s d m y hp, if_neg hr] at hb
          simp at hb
    · rintro ⟨ds, ms, ys, hcs, ha1, ha2, ha3, hdl, hml, hyl, hd1, hdm, hm1, hm12, hy1⟩
      have hdtok : dayTok ds = true := by
        have h31 : digitsToNat ds ≤ 31 := le_trans hdm (daysInMonth_le _ _)
        simp only [dayTok, Bool.and_eq_true, decide_eq_true_eq]
        exact ⟨⟨hdl, hd1⟩, h31⟩
      have hmtok : monthTok ms = true := by
        simp only [monthTok, Bool.and_eq_true, decide_eq_true_eq]
        exact ⟨⟨hml, hm1⟩, hm12⟩
      have hps : pyStrptimeDMY s.data =
          some (digitsToNat ds, digitsToNat ms, digitsToNat ys) := by
        rw [hcs]
        exact pyStrptimeDMY_build ds ms ys ha1 ha2 ha3 hdtok hmtok hyl
      have hy9999 : digitsToNat ys ≤ 9999 := by
        have hlt := digitsToNat_lt ys ha3
        rw [hyl] at hlt
        omega
      refine ⟨⟨⟨digitsToNat ys, digitsToNat ms, digitsToNat ds⟩⟩, ?_⟩
      rw [birthday_make_eq_some s _ _ _ hps,
        if_pos ⟨hy1, hy9999, hm1, hm12, hd1, hdm⟩]
  constructor
  · intro he hex
    obtain ⟨b, hb⟩ := hsucc.2 hex
    rw [he] at hb
    simp at hb
  · intro hne
    rcases hp : pyStrptimeDMY s.data with _ | ⟨d, m, y⟩
    · exact birthday_make_eq_none s hp
    · have hnr : ¬(1 ≤ y ∧ y ≤ 9999 ∧ 1 ≤ m ∧ m ≤ 12 ∧ 1 ≤ d ∧ d ≤ daysInMonth y m) :=
        fun hr => hne (hsucc.1 ⟨⟨⟨y, m, d⟩⟩,
          by rw [birthday_make_eq_some s d m y hp, if_pos hr]⟩)
      rw [birthday_make_eq_some s d m y hp, if_neg hnr]

/-- Claim C6 counterexample: for 15.06.0090 (a DD.MM.YYYY text whose day and
month are valid for year 90) Birthday succeeds, but strftime %Y renders the
year without leading zeros on this platform, so the round trip yields
15.06.90, not the original text. -/
theorem birthday_roundtrip_fails_small_year :
    Birthday.make ("15.06.0090") = .ok ⟨⟨90, 6, 15⟩⟩ ∧
      strftimeDMY ⟨90, 6, 15⟩ = ("15.06.90") ∧
      ("15.06.90") ≠ ("15.06.0090") :=
  ⟨by decide, by decide, by decide⟩

/-- Claim C6 as amended: for every text t of the form DD.MM.YYYY whose day
and month are valid for that year and whose year is at least 1000 (so that
the platform strftime %Y prints 4 digits again), Birthday(t) succeeds and
formatting the stored date back with %d.%m.%Y returns exactly t. -/
theorem birthday_roundtrip (t : String) (y m d : Nat)
    (ht : t = strftimeDMY ⟨y, m, d⟩)
    (hm1 : 1 ≤ m) (hm12 : m ≤ 12) (hd1 : 1 ≤ d) (hdm : d ≤ daysInMonth y m)
    (hy : 1000 ≤ y) (hy2 : y ≤ 9999) :
    ∃ bd, Birthday.make t = .ok bd ∧ strftimeDMY bd.value = t := by
  subst ht
  have hd100 : d < 100 := by
    have := daysInMonth_le y m
    omega
  have hm100 : m < 100 := by omega
  have hp2d := pad2_facts d hd100
  have hp2m := pad2_facts m hm100
  have hp4y := pad4_facts y hy2
  have hdata : (strftimeDMY ⟨y, m, d⟩).data
      = pad2 d ++ '.' :: (pad2 m ++ '.' :: pad4 y) := by
    simp [strftimeDMY, fmtYear_eq_pad4 y hy, List.append_assoc, List.cons_append]
  have hdtok : dayTok (pad2 d) = true := by
    simp only [dayTok, Bool.and_eq_true, decide_eq_true_eq]
    refine ⟨⟨.inr hp2d.2.2, ?_⟩, ?_⟩
    · rw [hp2d.2.1]
      exact hd1
    · rw [hp2d.2.1]
      have := daysInMonth_le y m
      omega
  have hmtok : monthTok (pad2 m) = true := by
    simp only [monthTok, Bool.and_eq_true, decide_eq_true_eq]
    refine ⟨⟨.inr hp2m.2.2, ?_⟩, ?_⟩
    · rw [hp2m.2.1]
      exact hm1
    · rw [hp2m.2.1]
      exact hm12
  have hps : pyStrptimeDMY (strftimeDMY ⟨y, m, d⟩).data = some (d, m, y) := by
    rw [hdata, pyStrptimeDMY_build (pad2 d) (pad2 m) (pad4 y) hp2d.1 hp2m.1
      hp4y.1 hdtok hmtok hp4y.2.2, hp2d.2.1, hp2m.2.1, hp4y.2.1]
  refine ⟨⟨⟨y, m, d⟩⟩, ?_, rfl⟩
  rw [birthday_make_eq_some _ d m y hps,
    if_pos ⟨by omega, hy2, hm1, hm12, hd1, hdm⟩]

/-- Claim C6 witness: 15.06.1990 parses and round-trips to itself. -/
theorem birthday_roundtrip_witness :
    ∃ bd, Birthday.make ("15.06.1990") = .ok bd ∧
      strftimeDMY bd.value = ("15.06.1990") :=
  birthday_roundtrip ("15.06.1990") 1990 6 15 (by decide) (by decide) (by decide)
    (by decide) (by decide) (by decide) (by decide)

end Task1
